import Mathlib

/-!
Verification development for the seclang rule-engine sources.

Go strings are byte sequences; we embed them as lists of byte values
(naturals below 256).  Each definition below is translated from a named
function of the repository sources; definitions that stand in for code
outside the provided sources (external packages) say so in their doc
comment.
-/

/-- Byte-string: the shallow embedding of a Go string. -/
abbrev GoStr := List Nat

/-- Encode an ASCII Lean string literal as a Go byte string. -/
def str (s : String) : GoStr := s.toList.map Char.toNat

/-- ASCII lowercasing, byte by byte.  Embeds strings.ToLower as used on
macro keys, whose bytes are all ASCII (they passed isValidMacroChar). -/
def lowerBytes (s : GoStr) : GoStr :=
  s.map (fun c => if 65 ≤ c ∧ c ≤ 90 then c + 32 else c)

/-- Rule variables.  The full catalogue lives in the external coraza
types/variables package; the development only needs a representative
sample plus the Unknown marker used for literal macro tokens. -/
inductive RuleVariable where
  | unknown
  | tx
  | args
  | requestHeaders
deriving DecidableEq

/-- Modelled from the spec: variables.Parse of the external coraza
types/variables package — "the scope name must resolve to a known
variable; an unknown scope name is a compile-time error".  Lookup is
case-insensitive; the error carries the unknown name. -/
def parseVariable (name : GoStr) : Except GoStr RuleVariable :=
  let n := lowerBytes name
  if n = str "tx" then Except.ok RuleVariable.tx
  else if n = str "args" then Except.ok RuleVariable.args
  else if n = str "request_headers" then Except.ok RuleVariable.requestHeaders
  else Except.error name

/-- One token of a compiled macro (struct macroToken of the macro
package): a literal text span (variable_ = unknown) or a variable
reference.  The text field stores exactly what the source stores. -/
structure MacroToken where
  text : GoStr
  variable_ : RuleVariable
  key : GoStr
deriving DecidableEq

/-- Errors produced by NewMacro and macro compile, one constructor per
distinct error return of the source. -/
inductive MacroError where
  | emptyData
  | emptyMacroErr
  | emptyVariableName
  | unknownVariable (name : GoStr)
  | malformedVariable (sofar : GoStr)
  | noClosingBraces
deriving DecidableEq

/-- Flush of currentToken as a literal token (the source appends a token
with variable Unknown and empty key whenever currentToken is nonempty). -/
def flushLit (cur : GoStr) : List MacroToken :=
  if cur.isEmpty then [] else [{ text := cur, variable_ := RuleVariable.unknown, key := [] }]

/-- Embeds isValidMacroChar of the macro package. -/
def isValidMacroChar (c : Nat) : Bool :=
  c = 91 || c = 93 || c = 46 || c = 95 || c = 45 ||
  (48 ≤ c && c ≤ 57) || (65 ≤ c && c ≤ 90) || (97 ≤ c && c ≤ 122)

/-- Embeds strings.Cut at the first dot (byte 46), as used on the
reference body: returns the part before the first dot and the part
after it (empty when no dot occurs). -/
def cutDot : GoStr → GoStr × GoStr
  | [] => ([], [])
  | c :: rest =>
    if c = 46 then ([], rest)
    else
      let p := cutDot rest
      (c :: p.1, p.2)

/-- Closing-brace handling of macro compile: the check that the byte
before the brace is not a dot (the byte before the brace is the last
byte of currentToken, or the opening brace when currentToken is empty),
the Cut at the first dot, variables.Parse, and the token construction
with the key lowercased.  The token text is currentToken exactly as in
the source — the source never writes the opening or closing delimiters
into currentToken. -/
def closeRef (cur : GoStr) : Except MacroError MacroToken :=
  if cur.getLast? = some 46 then Except.error MacroError.emptyVariableName
  else
    let p := cutDot cur
    match parseVariable p.1 with
    | Except.error n => Except.error (MacroError.unknownVariable n)
    | Except.ok v => Except.ok { text := cur, variable_ := v, key := lowerBytes p.2 }

/-- The scanning loop of macro compile (function compile of the macro
package), one step per input byte.  The first argument is the unread
input, then the isMacro flag, the accumulated tokens and currentToken.
The opener test (byte 37 followed by byte 123, requiring a following
byte to exist) runs before the isMacro branch, exactly as in the
source; inside a reference, a byte that is neither the closing brace
nor a valid macro character is an error, and a valid byte that is the
last byte of the input is the no-closing-braces error. -/
def compileLoop : List Nat → Bool → List MacroToken → GoStr →
    Except MacroError (List MacroToken)
  | [], _, tokens, cur => Except.ok (tokens ++ flushLit cur)
  | c1 :: c2 :: rest, isMacro, tokens, cur =>
    if c1 = 37 ∧ c2 = 123 then
      compileLoop rest true (tokens ++ flushLit cur) []
    else if isMacro then
      if c1 = 125 then
        match closeRef cur with
        | Except.error e => Except.error e
        | Except.ok t => compileLoop (c2 :: rest) false (tokens ++ [t]) []
      else if isValidMacroChar c1 then
        compileLoop (c2 :: rest) true tokens (cur ++ [c1])
      else Except.error (MacroError.malformedVariable cur)
    else compileLoop (c2 :: rest) false tokens (cur ++ [c1])
  | [c1], isMacro, tokens, cur =>
    if isMacro then
      if c1 = 125 then
        match closeRef cur with
        | Except.error e => Except.error e
        | Except.ok t => Except.ok (tokens ++ [t])
      else if isValidMacroChar c1 then Except.error MacroError.noClosingBraces
      else Except.error (MacroError.malformedVariable cur)
    else Except.ok (tokens ++ flushLit (cur ++ [c1]))

/-- Embeds compile of the macro package: empty input is the
empty-macro error, otherwise the scanning loop starts outside a
reference with no tokens accumulated. -/
def macroCompile (input : GoStr) : Except MacroError (List MacroToken) :=
  if input.isEmpty then Except.error MacroError.emptyMacroErr
  else compileLoop input false [] []

/-- A compiled macro (struct macro of the macro package): the original
template and the token sequence. -/
structure MacroVal where
  original : GoStr
  tokens : List MacroToken
deriving DecidableEq

/-- Embeds NewMacro: empty data is rejected with errEmptyData before
compilation; otherwise the compiled tokens are wrapped up with the
original template. -/
def NewMacro (data : GoStr) : Except MacroError MacroVal :=
  if data.isEmpty then Except.error MacroError.emptyData
  else (macroCompile data).map (fun ts => { original := data, tokens := ts })

/-- A match record (corazarules.MatchData as constructed in
internal/collections/named.go): originating variable, key and value. -/
structure MatchData where
  variable_ : RuleVariable
  key : GoStr
  value : GoStr
deriving DecidableEq

/-- The three collection shapes consulted by expandToken's type switch:
collection.Keyed (lookup by key), collection.Single (one value), and
the default shape queried through FindAll.  These interfaces are
external coraza types; each case carries exactly the operation the
source calls on it. -/
inductive Collection where
  | keyed (get : GoStr → List GoStr)
  | single (val : GoStr)
  | other (findAll : List MatchData)

/-- The facet of the transaction state used by macro expansion: the
Collection method of plugintypes.TransactionState. -/
structure MacroTx where
  collection : RuleVariable → Collection

/-- Embeds expandToken of the macro package.  The Bool component is
true exactly when the source reaches the key-not-found warning (the
DebugLogger diagnostic) before returning the token text. -/
def expandToken (tx : MacroTx) (t : MacroToken) : GoStr × Bool :=
  if t.variable_ = RuleVariable.unknown then (t.text, false)
  else
    match tx.collection t.variable_ with
    | Collection.keyed get =>
      match get t.key with
      | v :: _ => (v, false)
      | [] => (t.text, true)
    | Collection.single v => (v, false)
    | Collection.other findAll =>
      match findAll with
      | md :: _ => (md.value, false)
      | [] => (t.text, true)

/-- Embeds Expand of the macro package: a single-token macro
short-circuits to one token expansion, otherwise the token expansions
are concatenated in order. -/
def macroExpand (tx : MacroTx) (m : MacroVal) : GoStr :=
  match m.tokens with
  | [t] => (expandToken tx t).1
  | ts => (ts.map (fun tok => (expandToken tx tok).1)).flatten

/-- True when expanding the macro emits at least one key-not-found
diagnostic (observer over the warning component of expandToken). -/
def macroExpandWarned (tx : MacroTx) (m : MacroVal) : Bool :=
  m.tokens.any (fun tok => (expandToken tx tok).2)

/-- The facet of the transaction state used by the rx operator:
Capturing() and the capture slots written by CaptureField. -/
structure CaptureTx where
  capturing : Bool
  captures : Nat → Option GoStr

/-- Embeds tx.CaptureField(i, c): writes value c into slot i. -/
def captureField (tx : CaptureTx) (i : Nat) (c : GoStr) : CaptureTx :=
  { tx with captures := fun j => if j = i then some c else tx.captures j }

/-- The capture loop of rx.Evaluate / binaryRX.Evaluate: iterate the
submatch list with its index, stopping before writing index 9. -/
def captureLoop : CaptureTx → List GoStr → Nat → CaptureTx
  | tx, [], _ => tx
  | tx, c :: rest, i =>
    if i = 9 then tx else captureLoop (captureField tx i c) rest (i + 1)

/-- A compiled regular expression as consumed by Evaluate: the two
engine calls the source makes (FindStringSubmatch, where an empty
result means no match, and MatchString).  The engine itself —
regexp / binaryregexp — is external code. -/
structure RxRegex where
  findStringSubmatch : GoStr → List GoStr
  matchString : GoStr → Bool

/-- Embeds rx.Evaluate (internal/operators rx): in capturing mode the
submatch list is fetched, an empty list returns false, otherwise the
groups are stored through the capture loop and the result is true; in
non-capturing mode the result is MatchString and the transaction is
untouched. -/
def rxEvaluate (o : RxRegex) (tx : CaptureTx) (value : GoStr) : Bool × CaptureTx :=
  if tx.capturing then
    let m := o.findStringSubmatch value
    if m.length = 0 then (false, tx)
    else (true, captureLoop tx m 0)
  else (o.matchString value, tx)

/-- Embeds binaryRX.Evaluate, which repeats the body of rx.Evaluate
verbatim over the binaryregexp engine. -/
def binaryRxEvaluate (o : RxRegex) (tx : CaptureTx) (value : GoStr) : Bool × CaptureTx :=
  if tx.capturing then
    let m := o.findStringSubmatch value
    if m.length = 0 then (false, tx)
    else (true, captureLoop tx m 0)
  else (o.matchString value, tx)

/-- Hex-digit test of strconv.UnquoteChar's byte-escape path. -/
def isHexDigit (c : Nat) : Bool :=
  (48 ≤ c && c ≤ 57) || (97 ≤ c && c ≤ 102) || (65 ≤ c && c ≤ 70)

/-- Value of a hex digit byte. -/
def hexVal (c : Nat) : Nat :=
  if c ≤ 57 then c - 48 else if c ≤ 70 then c - 55 else c - 87

/-- The decoding loop of matchesArbitraryBytes: bytes other than a
backslash pass through; a backslash with fewer than three following
bytes is appended together with the rest of the input and scanning
stops; a backslash not followed by the letter x passes through alone;
a backslash-x with two hex digits decodes to that byte and consumes
four bytes; otherwise (UnquoteChar error) the backslash alone passes
through. -/
def decodeRx : List Nat → List Nat
  | [] => []
  | c :: rest =>
    if c ≠ 92 then c :: decodeRx rest
    else
      match rest with
      | x :: h1 :: h2 :: rest2 =>
        if x = 120 then
          if isHexDigit h1 && isHexDigit h2 then
            (16 * hexVal h1 + hexVal h2) :: decodeRx rest2
          else 92 :: decodeRx (x :: h1 :: h2 :: rest2)
        else 92 :: decodeRx (x :: h1 :: h2 :: rest2)
      | _ => 92 :: rest

/-- Continuation-byte test of UTF-8 (0x80–0xBF). -/
def contByte (b : Nat) : Bool := 128 ≤ b && b ≤ 191

/-- Embeds utf8.Valid of the Go standard library on byte lists:
ASCII bytes stand alone; first bytes 0xC2–0xDF, 0xE0–0xEF and
0xF0–0xF4 open two-, three- and four-byte sequences with the
standard restricted ranges on the first continuation byte (rejecting
overlong encodings, surrogates and values above U+10FFFF); anything
else is invalid. -/
def utf8Valid : List Nat → Bool
  | [] => true
  | b :: rest =>
    if b ≤ 127 then utf8Valid rest
    else if 194 ≤ b && b ≤ 223 then
      match rest with
      | b1 :: rest2 => contByte b1 && utf8Valid rest2
      | [] => false
    else if b = 224 then
      match rest with
      | b1 :: b2 :: rest2 => (160 ≤ b1 && b1 ≤ 191) && contByte b2 && utf8Valid rest2
      | _ => false
    else if 225 ≤ b && b ≤ 236 then
      match rest with
      | b1 :: b2 :: rest2 => contByte b1 && contByte b2 && utf8Valid rest2
      | _ => false
    else if b = 237 then
      match rest with
      | b1 :: b2 :: rest2 => (128 ≤ b1 && b1 ≤ 159) && contByte b2 && utf8Valid rest2
      | _ => false
    else if 238 ≤ b && b ≤ 239 then
      match rest with
      | b1 :: b2 :: rest2 => contByte b1 && contByte b2 && utf8Valid rest2
      | _ => false
    else if b = 240 then
      match rest with
      | b1 :: b2 :: b3 :: rest2 =>
        (144 ≤ b1 && b1 ≤ 191) && contByte b2 && contByte b3 && utf8Valid rest2
      | _ => false
    else if 241 ≤ b && b ≤ 243 then
      match rest with
      | b1 :: b2 :: b3 :: rest2 =>
        contByte b1 && contByte b2 && contByte b3 && utf8Valid rest2
      | _ => false
    else if b = 244 then
      match rest with
      | b1 :: b2 :: b3 :: rest2 =>
        (128 ≤ b1 && b1 ≤ 143) && contByte b2 && contByte b3 && utf8Valid rest2
      | _ => false
    else false

/-- Embeds matchesArbitraryBytes (internal/operators rx source): the
expression, with its byte escapes decoded, is checked for UTF-8
validity; an invalid result selects the binary engine. -/
def matchesArbitraryBytes (expr : GoStr) : Bool :=
  !(utf8Valid (decodeRx expr))

/-- The pattern text newRX hands to the text engine: the implicit
dotall modifier in narrow mode, the dotall-plus-multiline modifier by
default (flag shouldNotUseMultilineRegexesOperatorByDefault, a
package-level configuration bit, is passed here as the narrow
argument). -/
def rxWrap (narrow : Bool) (args : GoStr) : GoStr :=
  if narrow then str "(?s)" ++ args else str "(?sm)" ++ args

/-- The engine a compiled rx operator instance ends up on, with the
exact source text handed to that engine's Compile. -/
inductive RxOp where
  | text (pattern : GoStr)
  | binary (pattern : GoStr)
deriving DecidableEq

/-- Embeds the engine-selection logic of newRX: the wrapped pattern is
tested by matchesArbitraryBytes; on a hit newBinaryRX compiles
options.Arguments (the raw, unwrapped argument), otherwise the text
engine compiles the wrapped pattern.  Compilation success of the
external engines (and their memoization) is outside this model. -/
def newRX (narrow : Bool) (args : GoStr) : RxOp :=
  let data := rxWrap narrow args
  if matchesArbitraryBytes data then RxOp.binary args
  else RxOp.text data

/-- Substring test on byte strings (used to state what the external
binary engine does on literal patterns). -/
def hasSub (needle : List Nat) : List Nat → Bool
  | [] => needle.isEmpty
  | c :: rest => needle.isPrefixOf (c :: rest) || hasSub needle rest

/-- Modelled from the spec: the binary-safe matching engine (the
external rsc.io/binaryregexp package, not part of this repository),
restricted to patterns that are literal byte sequences written with
backslash-x escapes and no other regex metacharacters — such a
pattern matches a value exactly when its decoded bytes occur as a
contiguous substring of the value. -/
def binaryLiteralMatch (pattern value : GoStr) : Bool :=
  hasSub (decodeRx pattern) value

/-- Rule metadata consulted by the deny action: ID, ParentID, Status. -/
structure RuleMetadata where
  id : Int
  parentID : Int
  status : Int

/-- Embeds types.Interruption: status, rule ID and action name. -/
structure Interruption where
  status : Int
  ruleID : Int
  action : GoStr
deriving DecidableEq

/-- The facet of the transaction state used by the deny action.
Interrupt is modelled from the spec as storing the interruption
("the first disruptive action executed sets the Interruption"). -/
structure DenyTx where
  interruption : Option Interruption

/-- Embeds denyFn.Evaluate (internal/actions deny): the rule's own ID
unless it is the unset marker 0, in which case the parent ID; the
configured status unless it is the unset marker 0, in which case
http.StatusForbidden (403); action name deny. -/
def denyEvaluate (r : RuleMetadata) (tx : DenyTx) : DenyTx :=
  let rid := if r.id = 0 then r.parentID else r.id
  let status := if r.status = 0 then 403 else r.status
  { tx with interruption := some { status := status, ruleID := rid, action := str "deny" } }

/-- One stored entry of the underlying Map: the original-case key the
entry was stored under, and its value. -/
structure KeyValue where
  key : GoStr
  value : GoStr
deriving DecidableEq

/-- The data of a NamedCollection's underlying Map
(map from stored key to its entries), embedded as an association
list; Go map iteration order is abstracted as list order. -/
structure NamedCollection where
  data : List (GoStr × List KeyValue)

/-- Modelled from the spec: Get of the underlying Map, whose
implementation is not among the provided sources — "Get(key) returns
the ordered sequence of values, case-insensitive exact lookup"; keys
are stored lowercased, values are returned in insertion order. -/
def mapGet (m : NamedCollection) (key : GoStr) : List GoStr :=
  match m.data.find? (fun e => e.1 = lowerBytes key) with
  | some e => e.2.map (fun d => d.value)
  | none => []

/-- The names view over a NamedCollection
(struct NamedCollectionNames of internal/collections/named.go). -/
structure NamedCollectionNames where
  variable_ : RuleVariable
  collection : NamedCollection

/-- Loop-and-append over the map entries, as the find methods of the
names view do. -/
def concatMapL (f : α → List β) : List α → List β
  | [] => []
  | a :: as => f a ++ concatMapL f as

/-- Embeds NamedCollectionNames.FindAll: every stored entry yields a
record carrying the view's variable and the entry's original-case key
as both key and value. -/
def namesFindAll (c : NamedCollectionNames) : List MatchData :=
  concatMapL
    (fun kd => kd.2.map (fun d =>
      { variable_ := c.variable_, key := d.key, value := d.key }))
    c.collection.data

/-- Embeds NamedCollectionNames.FindString: entries stored under a
non-matching key are skipped, matching entries yield the same records
as FindAll. -/
def namesFindString (c : NamedCollectionNames) (key : GoStr) : List MatchData :=
  concatMapL
    (fun kd =>
      if kd.1 = key then
        kd.2.map (fun d =>
          { variable_ := c.variable_, key := d.key, value := d.key })
      else [])
    c.collection.data

/-- Embeds NamedCollectionNames.FindRegex; the external regexp engine's
MatchString on stored keys is abstracted as a predicate. -/
def namesFindRegex (c : NamedCollectionNames) (pred : GoStr → Bool) : List MatchData :=
  concatMapL
    (fun kd =>
      if pred kd.1 then
        kd.2.map (fun d =>
          { variable_ := c.variable_, key := d.key, value := d.key })
      else [])
    c.collection.data

/-- Embeds NamedCollectionNames.Get, which delegates to the underlying
Map's Get. -/
def namesGet (c : NamedCollectionNames) (key : GoStr) : List GoStr :=
  mapGet c.collection key

/-- The macro template of the expansion examples:
prefix %\x7btx.foo\x7d suffix (ASCII bytes). -/
def tmplC1 : GoStr := str "prefix %\x7btx.foo\x7d suffix"

/-- A transaction whose keyed collections hold no keys at all. -/
def txUnsetC1 : MacroTx := { collection := fun _ => Collection.keyed (fun _ => []) }

/-- A transaction where the TX collection maps key foo to value bar. -/
def txSetC1 : MacroTx :=
  { collection := fun v =>
      match v with
      | RuleVariable.tx =>
        Collection.keyed (fun k => if k = str "foo" then [str "bar"] else [])
      | _ => Collection.keyed (fun _ => []) }

/-- A compiled regex whose submatch list always has eleven groups
(group 0 plus ten capturing groups). -/
def rxAll11 : RxRegex :=
  { findStringSubmatch := fun _ => (List.range 11).map (fun i => [i])
  , matchString := fun _ => true }

/-- A compiled regex that never matches. -/
def rxNoneRe : RxRegex :=
  { findStringSubmatch := fun _ => [], matchString := fun _ => false }

/-- A capturing transaction with every capture slot unset. -/
def txCap0 : CaptureTx := { capturing := true, captures := fun _ => none }

/-- A names view over one request-header entry stored under lowercase
key host with original-case key Host. -/
def ncHost : NamedCollectionNames :=
  { variable_ := RuleVariable.requestHeaders
  , collection := { data := [(str "host", [{ key := str "Host", value := str "example.com" }])] } }

/-- The match record the names view reports for the Host entry. -/
def mdHost : MatchData :=
  { variable_ := RuleVariable.requestHeaders, key := str "Host", value := str "Host" }

/-- A names view whose single key id holds two values under
original-case keys Id and ID. -/
def ncVals : NamedCollectionNames :=
  { variable_ := RuleVariable.args
  , collection := { data := [(str "id",
      [ { key := str "Id", value := str "v1" }
      , { key := str "ID", value := str "v2" } ])] } }

lemma captureLoop_spec (m : List GoStr) : ∀ (tx : CaptureTx) (i : Nat), i ≤ 9 → ∀ (j : Nat),
    (captureLoop tx m i).captures j =
      if i ≤ j ∧ j < min (i + m.length) 9 then m.get? (j - i) else tx.captures j := by
  induction m with
  | nil =>
    intro tx i hi j
    have hcond : ¬ (i ≤ j ∧ j < min (i + ([] : List GoStr).length) 9) := by
      simp only [List.length_nil, Nat.add_zero]
      omega
    rw [if_neg hcond]
    rfl
  | cons c rest ih =>
    intro tx i hi j
    have hlen : (c :: rest).length = rest.length + 1 := rfl
    by_cases h9 : i = 9
    · subst h9
      have hcond : ¬ (9 ≤ j ∧ j < min (9 + (c :: rest).length) 9) := by omega
      rw [if_neg hcond]
      show tx.captures j = tx.captures j
      rfl
    · have hstep : captureLoop tx (c :: rest) i = captureLoop (captureField tx i c) rest (i + 1) := by
        simp [captureLoop, h9]
      rw [hstep, ih (captureField tx i c) (i + 1) (by omega) j]
      rcases Nat.lt_trichotomy j i with hj | hj | hj
      · have h1 : ¬ ((i + 1) ≤ j ∧ j < min (i + 1 + rest.length) 9) := by omega
        have h2 : ¬ (i ≤ j ∧ j < min (i + (c :: rest).length) 9) := by
          rw [hlen]; omega
        rw [if_neg h1, if_neg h2]
        show (if j = i then some c else tx.captures j) = tx.captures j
        rw [if_neg (by omega)]
      · subst hj
        have h1 : ¬ ((j + 1) ≤ j ∧ j < min (j + 1 + rest.length) 9) := by omega
        have h2 : j ≤ j ∧ j < min (j + (c :: rest).length) 9 := by
          rw [hlen]; omega
        rw [if_neg h1, if_pos h2]
        show (if j = j then some c else tx.captures j) = (c :: rest).get? (j - j)
        rw [if_pos rfl, Nat.sub_self]
        rfl
      · rcases Nat.lt_or_ge j (min (i + 1 + rest.length) 9) with hlt | hge
        · have hc1 : (i + 1) ≤ j ∧ j < min (i + 1 + rest.length) 9 := ⟨by omega, hlt⟩
          have hc2 : i ≤ j ∧ j < min (i + (c :: rest).length) 9 := by
            rw [hlen]; omega
          rw [if_pos hc1, if_pos hc2]
          have e1 : j - i = (j - (i + 1)) + 1 := by omega
          rw [e1]
          rfl
        · have hc1 : ¬ ((i + 1) ≤ j ∧ j < min (i + 1 + rest.length) 9) := by omega
          have hc2 : ¬ (i ≤ j ∧ j < min (i + (c :: rest).length) 9) := by
            rw [hlen]; omega
          rw [if_neg hc1, if_neg hc2]
          show (if j = i then some c else tx.captures j) = tx.captures j
          rw [if_neg (by omega)]

/-- Claim C2: in capturing mode, a successful match of the regex
operator (text and binary variant alike) returns true and writes the
submatch groups into capture slots 0 through 8 only: slot j below 9
receives group j when the match has one, and every slot at index 9 or
beyond is left exactly as it was, no matter how many groups the match
produced. -/
theorem rxEvaluate_capture_bounds (o : RxRegex) (tx : CaptureTx) (v : GoStr)
    (hc : tx.capturing = true) (hm : o.findStringSubmatch v ≠ []) :
    ((rxEvaluate o tx v).1 = true ∧ (binaryRxEvaluate o tx v).1 = true) ∧
    (∀ j, j < 9 → j < (o.findStringSubmatch v).length →
      (rxEvaluate o tx v).2.captures j = (o.findStringSubmatch v).get? j ∧
      (binaryRxEvaluate o tx v).2.captures j = (o.findStringSubmatch v).get? j) ∧
    (∀ j, 9 ≤ j →
      (rxEvaluate o tx v).2.captures j = tx.captures j ∧
      (binaryRxEvaluate o tx v).2.captures j = tx.captures j) := by
  have hlen : ¬ ((o.findStringSubmatch v).length = 0) := by
    simpa [List.length_eq_zero] using hm
  have heval : rxEvaluate o tx v = (true, captureLoop tx (o.findStringSubmatch v) 0) := by
    simp [rxEvaluate, hc, hlen]
  have heval2 : binaryRxEvaluate o tx v = (true, captureLoop tx (o.findStringSubmatch v) 0) := by
    simp [binaryRxEvaluate, hc, hlen]
  rw [heval, heval2]
  refine ⟨⟨rfl, rfl⟩, ?_, ?_⟩
  · intro j hj9 hjlen
    have hcond : 0 ≤ j ∧ j < min (0 + (o.findStringSubmatch v).length) 9 := by omega
    constructor <;>
      rw [captureLoop_spec (o.findStringSubmatch v) tx 0 (by omega) j, if_pos hcond, Nat.sub_zero]
  · intro j hj
    have hcond : ¬ (0 ≤ j ∧ j < min (0 + (o.findStringSubmatch v).length) 9) := by omega
    constructor <;>
      rw [captureLoop_spec (o.findStringSubmatch v) tx 0 (by omega) j, if_neg hcond]

/-- Witness for C2: an eleven-group match fills slot 8, leaves slots 9
and 10 unset, and Evaluate returns true. -/
theorem rxEvaluate_capture_bounds_witness :
    (rxEvaluate rxAll11 txCap0 []).1 = true ∧
    (rxEvaluate rxAll11 txCap0 []).2.captures 8 = some [8] ∧
    (rxEvaluate rxAll11 txCap0 []).2.captures 9 = none ∧
    (rxEvaluate rxAll11 txCap0 []).2.captures 10 = none := by
  have h := rxEvaluate_capture_bounds rxAll11 txCap0 [] rfl (by decide)
  refine ⟨h.1.1, ?_, ?_, ?_⟩
  · exact ((h.2.1 8 (by omega) (by decide)).1).trans (by decide)
  · exact ((h.2.2 9 (by omega)).1).trans rfl
  · exact ((h.2.2 10 (by omega)).1).trans rfl

/-- Claim C8: in capturing mode, when the regex operator (text or
binary variant) finds no match, Evaluate returns false and the
transaction's capture state is returned unchanged — no CaptureField
write happens. -/
theorem rxEvaluate_nomatch_frame (o : RxRegex) (tx : CaptureTx) (v : GoStr)
    (hc : tx.capturing = true) (hm : o.findStringSubmatch v = []) :
    rxEvaluate o tx v = (false, tx) ∧ binaryRxEvaluate o tx v = (false, tx) := by
  constructor <;> simp [rxEvaluate, binaryRxEvaluate, hc, hm]

/-- Witness for C8: a never-matching regex returns false and the
capturing transaction state it was given. -/
theorem rxEvaluate_nomatch_frame_witness :
    rxEvaluate rxNoneRe txCap0 (str "abc") = (false, txCap0) ∧
    binaryRxEvaluate rxNoneRe txCap0 (str "abc") = (false, txCap0) :=
  rxEvaluate_nomatch_frame rxNoneRe txCap0 (str "abc") rfl rfl

/-- Claim C3: the deny action sets an Interruption whose action is
deny, whose rule ID is the rule's own ID when nonzero and the parent
(chain head) ID otherwise, and whose status is the configured status
when nonzero and 403 otherwise. -/
theorem denyFn_evaluate_interruption (r : RuleMetadata) (tx : DenyTx) :
    ((denyEvaluate r tx).interruption.map Interruption.action = some (str "deny")) ∧
    (r.id ≠ 0 → (denyEvaluate r tx).interruption.map Interruption.ruleID = some r.id) ∧
    (r.id = 0 → (denyEvaluate r tx).interruption.map Interruption.ruleID = some r.parentID) ∧
    (r.status ≠ 0 → (denyEvaluate r tx).interruption.map Interruption.status = some r.status) ∧
    (r.status = 0 → (denyEvaluate r tx).interruption.map Interruption.status = some 403) := by
  refine ⟨rfl, ?_, ?_, ?_, ?_⟩ <;> intro h <;> simp [denyEvaluate, h]

/-- Witness for C3: a chained rule with ID 0, parent 42 and no status
denies with rule ID 42 and status 403. -/
theorem denyFn_evaluate_interruption_witness :
    (denyEvaluate { id := 0, parentID := 42, status := 0 }
        { interruption := none }).interruption.map Interruption.ruleID = some 42 ∧
    (denyEvaluate { id := 0, parentID := 42, status := 0 }
        { interruption := none }).interruption.map Interruption.status = some 403 := by
  have h := denyFn_evaluate_interruption { id := 0, parentID := 42, status := 0 }
    { interruption := none }
  exact ⟨h.2.2.1 rfl, h.2.2.2.2 rfl⟩

/-- Claim C9: NewMacro on the empty string fails with the empty-data
error; no macro value is produced. -/
theorem NewMacro_empty_error : NewMacro [] = Except.error MacroError.emptyData := rfl

/-- Claim C4: whenever decoding the byte escapes of the wrapped pattern
text yields bytes that are not valid UTF-8, newRX selects the binary
engine (compiling the raw argument); concretely, the four-byte argument
backslash-x-F-F decodes to the single byte 255, which is not valid
UTF-8, and the binary engine on that literal pattern matches a value
containing byte 255. -/
theorem newRX_binary_path :
    (∀ (narrow : Bool) (args : GoStr),
        matchesArbitraryBytes (rxWrap narrow args) = true →
        newRX narrow args = RxOp.binary args) ∧
    decodeRx (str "\\xFF") = [255] ∧
    utf8Valid [255] = false ∧
    binaryLiteralMatch (str "\\xFF") (str "ab" ++ [255] ++ str "cd") = true := by
  refine ⟨?_, by decide, by decide, by decide⟩
  intro narrow args h
  simp [newRX, h]

/-- Witness for C4: the backslash-x-F-F argument hits the
arbitrary-bytes test and is compiled on the binary engine. -/
theorem newRX_binary_path_witness :
    newRX true (str "\\xFF") = RxOp.binary (str "\\xFF") :=
  newRX_binary_path.1 true (str "\\xFF") (by decide)

/-- Counterexample for C6: a binary-path instance is not wrapped — the
backslash-x-F-F argument compiles on the binary engine with the raw
argument as its pattern, which differs from both wrapped forms. -/
theorem newRX_wrap_counterexample :
    newRX false (str "\\xFF") = RxOp.binary (str "\\xFF") ∧
    (str "\\xFF" : GoStr) ≠ rxWrap false (str "\\xFF") ∧
    (str "\\xFF" : GoStr) ≠ rxWrap true (str "\\xFF") := by
  exact ⟨by decide, by decide, by decide⟩

/-- Claim C6 as amended: every text-path rx instance compiles the
argument wrapped with the dotall-plus-multiline modifier by default,
or the dotall modifier in narrow mode; an instance routed to the
binary-safe path compiles the raw argument with no implicit modifier. -/
theorem newRX_wrap_modes (narrow : Bool) (args : GoStr) :
    (matchesArbitraryBytes (rxWrap narrow args) = false →
        newRX narrow args = RxOp.text (rxWrap narrow args)) ∧
    (matchesArbitraryBytes (rxWrap narrow args) = true →
        newRX narrow args = RxOp.binary args) ∧
    rxWrap false args = str "(?sm)" ++ args ∧
    rxWrap true args = str "(?s)" ++ args := by
  refine ⟨?_, ?_, rfl, rfl⟩ <;> intro h <;> simp [newRX, h]

/-- Witness for C6 (amended): a plain text argument compiles on the
text engine with the wrapped pattern. -/
theorem newRX_wrap_modes_witness :
    newRX false (str "abc") = RxOp.text (rxWrap false (str "abc")) :=
  (newRX_wrap_modes false (str "abc")).1 (by decide)

/-- Claim C1 (divergence): compiling the template
prefix %\x7btx.foo\x7d suffix succeeds; expanding it against a
transaction where TX has no key foo yields prefix tx.foo suffix —
the reference body without its delimiters, not the original literal
text — while emitting the key-not-found diagnostic; against a
transaction with TX.foo = bar it yields prefix bar suffix.  The
delimiter-free result differs from the original template text. -/
theorem macroExpand_missing_key_drops_delimiters :
    (NewMacro tmplC1).map (fun m => macroExpand txUnsetC1 m) =
      Except.ok (str "prefix tx.foo suffix") ∧
    (NewMacro tmplC1).map (fun m => macroExpandWarned txUnsetC1 m) = Except.ok true ∧
    (NewMacro tmplC1).map (fun m => macroExpand txSetC1 m) =
      Except.ok (str "prefix bar suffix") ∧
    str "prefix tx.foo suffix" ≠ str "prefix %\x7btx.foo\x7d suffix" := by
  exact ⟨rfl, rfl, rfl, by decide⟩

/-- Counterexample for C5: a template consisting of the bare opener
(bytes 37, 123) alone compiles successfully into a macro with no
tokens, and a template whose open reference is interrupted by a
second opener that ends the input (bytes of the form opener, a,
opener) also compiles successfully — the pending reference text a is
flushed as a literal token and the dangling opener is discarded.  In
neither template is the opener ever closed, yet compilation does not
fail. -/
theorem macroCompile_dangling_opener_ok :
    NewMacro [37, 123] = Except.ok { original := [37, 123], tokens := [] } ∧
    NewMacro [37, 123, 97, 37, 123] = Except.ok
      { original := [37, 123, 97, 37, 123]
      , tokens := [{ text := [97], variable_ := RuleVariable.unknown, key := [] }] } :=
  ⟨rfl, rfl⟩

lemma compileLoop_macro_err (suf : GoStr) :
    ∀ (tokens : List MacroToken) (cur : GoStr),
    suf ≠ [] → 125 ∉ suf → hasSub [37, 123] suf = false →
    ∃ e, compileLoop suf true tokens cur = Except.error e := by
  induction suf with
  | nil => intro tokens cur hne _ _; exact absurd rfl hne
  | cons c rest ih =>
    intro tokens cur _ hcb hop
    rw [List.mem_cons, not_or] at hcb
    have hc125 : ¬ (c = 125) := fun e => hcb.1 e.symm
    cases rest with
    | nil =>
      by_cases hv : isValidMacroChar c
      · exact ⟨MacroError.noClosingBraces, by simp [compileLoop, hc125, hv]⟩
      · exact ⟨MacroError.malformedVariable cur, by simp [compileLoop, hc125, hv]⟩
    | cons c2 rest2 =>
      have hcond : ¬ (c = 37 ∧ c2 = 123) := by
        intro hx
        rw [hx.1, hx.2] at hop
        simp [hasSub, List.isPrefixOf] at hop
      by_cases hv : isValidMacroChar c
      · have hrest : hasSub [37, 123] (c2 :: rest2) = false := by
          rw [hasSub, Bool.or_eq_false_iff] at hop
          exact hop.2
        have hcb2 : 125 ∉ c2 :: rest2 := hcb.2
        obtain ⟨e, he⟩ := ih tokens (cur ++ [c]) (by simp) hcb2 hrest
        refine ⟨e, ?_⟩
        rw [show compileLoop (c :: c2 :: rest2) true tokens cur =
            compileLoop (c2 :: rest2) true tokens (cur ++ [c]) by
          simp [compileLoop, hcond, hc125, hv]]
        exact he
      · exact ⟨MacroError.malformedVariable cur, by simp [compileLoop, hcond, hc125, hv]⟩

lemma compileLoop_progress (suf : GoStr) :
    ∀ (n : Nat) (pre : GoStr), pre.length ≤ n →
    ∀ (m : Bool) (tokens : List MacroToken) (cur : GoStr),
    (∃ e, compileLoop (pre ++ 37 :: 123 :: suf) m tokens cur = Except.error e) ∨
    (∃ ts, compileLoop (pre ++ 37 :: 123 :: suf) m tokens cur = compileLoop suf true ts []) := by
  intro n
  induction n with
  | zero =>
    intro pre hlen m tokens cur
    have hpre : pre = [] := List.length_eq_zero.mp (Nat.le_zero.mp hlen)
    subst hpre
    exact Or.inr ⟨tokens ++ flushLit cur, by simp [compileLoop]⟩
  | succ n ih =>
    intro pre hlen m tokens cur
    cases pre with
    | nil =>
      exact Or.inr ⟨tokens ++ flushLit cur, by simp [compileLoop]⟩
    | cons c pre' =>
      cases pre' with
      | nil =>
        have hopn : ¬ (c = 37 ∧ (37 : Nat) = 123) := fun hx => by
          exact absurd hx.2 (by decide)
        cases m with
        | false =>
          exact Or.inr ⟨tokens ++ flushLit (cur ++ [c]), by simp [compileLoop, hopn, flushLit]⟩
        | true =>
          by_cases hc : c = 125
          · subst hc
            cases hcr : closeRef cur with
            | error e =>
              exact Or.inl ⟨e, by simp [compileLoop, hcr]⟩
            | ok t =>
              exact Or.inr ⟨tokens ++ [t], by simp [compileLoop, hcr, flushLit]⟩
          · by_cases hv : isValidMacroChar c
            · exact Or.inr ⟨tokens ++ flushLit (cur ++ [c]),
                by simp [compileLoop, hopn, hc, hv, flushLit]⟩
            · exact Or.inl ⟨MacroError.malformedVariable cur,
                by simp [compileLoop, hopn, hc, hv]⟩
      | cons a as =>
        have hlen2 : as.length + 2 ≤ n + 1 := by
          simpa [List.length_cons] using hlen
        by_cases hopn : c = 37 ∧ a = 123
        · obtain ⟨h37, h123⟩ := hopn
          subst h37
          subst h123
          have hstep : compileLoop ((37 :: 123 :: as) ++ 37 :: 123 :: suf) m tokens cur =
              compileLoop (as ++ 37 :: 123 :: suf) true (tokens ++ flushLit cur) [] := by
            simp [compileLoop]
          rw [hstep]
          exact ih as (by omega) true (tokens ++ flushLit cur) []
        · have hnext : ∀ (m' : Bool) (tokens' : List MacroToken) (cur' : GoStr),
              (∃ e, compileLoop (a :: (as ++ 37 :: 123 :: suf)) m' tokens' cur' =
                Except.error e) ∨
              (∃ ts, compileLoop (a :: (as ++ 37 :: 123 :: suf)) m' tokens' cur' =
                compileLoop suf true ts []) := by
            intro m' tokens' cur'
            have := ih (a :: as) (by simp [List.length_cons]; omega) m' tokens' cur'
            rwa [List.cons_append] at this
          cases m with
          | false =>
            have hstep : compileLoop ((c :: a :: as) ++ 37 :: 123 :: suf) false tokens cur =
                compileLoop (a :: (as ++ 37 :: 123 :: suf)) false tokens (cur ++ [c]) := by
              simp [compileLoop, hopn]
            rw [hstep]
            exact hnext false tokens (cur ++ [c])
          | true =>
            by_cases hc : c = 125
            · subst hc
              cases hcr : closeRef cur with
              | error e =>
                exact Or.inl ⟨e, by simp [compileLoop, hopn, hcr]⟩
              | ok t =>
                have hstep : compileLoop ((125 :: a :: as) ++ 37 :: 123 :: suf) true tokens cur =
                    compileLoop (a :: (as ++ 37 :: 123 :: suf)) false (tokens ++ [t]) [] := by
                  simp [compileLoop, hopn, hcr]
                rw [hstep]
                exact hnext false (tokens ++ [t]) []
            · by_cases hv : isValidMacroChar c
              · have hstep : compileLoop ((c :: a :: as) ++ 37 :: 123 :: suf) true tokens cur =
                    compileLoop (a :: (as ++ 37 :: 123 :: suf)) true tokens (cur ++ [c]) := by
                  simp [compileLoop, hopn, hc, hv]
                rw [hstep]
                exact hnext true tokens (cur ++ [c])
              · exact Or.inl ⟨MacroError.malformedVariable cur,
                  by simp [compileLoop, hopn, hc, hv]⟩

/-- Claim C5 as amended: whatever bytes precede it, when a reference
opener is followed by at least one byte and neither a closing brace
nor another opener occurs in the rest of the template, compilation
fails with a syntax error; a template that ends immediately after an
opener, however, compiles successfully with the dangling opener
silently discarded (flushing any pending reference text as a
literal). -/
theorem macroCompile_unterminated_error (pre suf : GoStr)
    (hne : suf ≠ []) (hcb : 125 ∉ suf)
    (hop : hasSub [37, 123] suf = false) :
    ∃ e, NewMacro (pre ++ 37 :: 123 :: suf) = Except.error e := by
  have hnonempty : (pre ++ 37 :: 123 :: suf).isEmpty = false := by
    cases pre <;> rfl
  have hstart : NewMacro (pre ++ 37 :: 123 :: suf) =
      (compileLoop (pre ++ 37 :: 123 :: suf) false [] []).map
        (fun ts => { original := pre ++ 37 :: 123 :: suf, tokens := ts }) := by
    rw [NewMacro, if_neg (by rw [hnonempty]; exact Bool.false_ne_true),
      macroCompile, if_neg (by rw [hnonempty]; exact Bool.false_ne_true)]
  rcases compileLoop_progress suf (pre.length) pre (Nat.le_refl _) false [] [] with
    ⟨e, he⟩ | ⟨ts, hts⟩
  · exact ⟨e, by rw [hstart, he]; rfl⟩
  · obtain ⟨e, he⟩ := compileLoop_macro_err suf ts [] hne hcb hop
    exact ⟨e, by rw [hstart, hts, he]; rfl⟩

/-- Witness for C5 (amended): a template holding a complete reference,
a space, and then an opener followed by the unclosed reference text
tx.b fails to compile. -/
theorem macroCompile_unterminated_error_witness :
    (NewMacro (str "%\x7btx.a\x7d " ++ 37 :: 123 :: str "tx.b")).isOk = false := by
  obtain ⟨e, he⟩ :=
    macroCompile_unterminated_error (str "%\x7btx.a\x7d ") (str "tx.b") (by decide)
      (by decide) (by decide)
  rw [he]
  rfl

lemma mem_concatMapL {f : α → List β} {b : β} :
    ∀ {l : List α}, b ∈ concatMapL f l ↔ ∃ a, a ∈ l ∧ b ∈ f a := by
  intro l
  induction l with
  | nil => simp [concatMapL]
  | cons x xs ih => simp [concatMapL, ih]

lemma mem_namesFindAll_shape (c : NamedCollectionNames) (md : MatchData)
    (h : md ∈ namesFindAll c) :
    ∃ kd d, kd ∈ c.collection.data ∧ d ∈ kd.2 ∧
      md = { variable_ := c.variable_, key := d.key, value := d.key } := by
  rw [namesFindAll, mem_concatMapL] at h
  obtain ⟨kd, hkd, hmem⟩ := h
  rw [List.mem_map] at hmem
  obtain ⟨d, hd, hmd⟩ := hmem
  exact ⟨kd, d, hkd, hd, hmd.symm⟩

lemma mem_namesFindString_shape (c : NamedCollectionNames) (key : GoStr) (md : MatchData)
    (h : md ∈ namesFindString c key) :
    ∃ kd d, kd ∈ c.collection.data ∧ d ∈ kd.2 ∧
      md = { variable_ := c.variable_, key := d.key, value := d.key } := by
  rw [namesFindString, mem_concatMapL] at h
  obtain ⟨kd, hkd, hmem⟩ := h
  by_cases hk : kd.1 = key
  · rw [if_pos hk, List.mem_map] at hmem
    obtain ⟨d, hd, hmd⟩ := hmem
    exact ⟨kd, d, hkd, hd, hmd.symm⟩
  · rw [if_neg hk] at hmem
    exact absurd hmem (List.not_mem_nil md)

lemma mem_namesFindRegex_shape (c : NamedCollectionNames) (pred : GoStr → Bool) (md : MatchData)
    (h : md ∈ namesFindRegex c pred) :
    ∃ kd d, kd ∈ c.collection.data ∧ d ∈ kd.2 ∧
      md = { variable_ := c.variable_, key := d.key, value := d.key } := by
  rw [namesFindRegex, mem_concatMapL] at h
  obtain ⟨kd, hkd, hmem⟩ := h
  by_cases hk : pred kd.1
  · rw [if_pos hk, List.mem_map] at hmem
    obtain ⟨d, hd, hmd⟩ := hmem
    exact ⟨kd, d, hkd, hd, hmd.symm⟩
  · rw [if_neg hk] at hmem
    exact absurd hmem (List.not_mem_nil md)

/-- Claim C7: every match record produced by the names view's FindAll,
FindString or FindRegex carries the view's originating variable, its
value equals its key, and that key is the original-case key under
which some entry is stored in the collection. -/
theorem namesView_records (c : NamedCollectionNames) (pred : GoStr → Bool)
    (key : GoStr) (md : MatchData)
    (h : md ∈ namesFindAll c ∨ md ∈ namesFindString c key ∨ md ∈ namesFindRegex c pred) :
    md.variable_ = c.variable_ ∧ md.value = md.key ∧
    ∃ kd d, kd ∈ c.collection.data ∧ d ∈ kd.2 ∧ md.key = d.key := by
  have hshape : ∃ kd d, kd ∈ c.collection.data ∧ d ∈ kd.2 ∧
      md = { variable_ := c.variable_, key := d.key, value := d.key } := by
    rcases h with h | h | h
    · exact mem_namesFindAll_shape c md h
    · exact mem_namesFindString_shape c key md h
    · exact mem_namesFindRegex_shape c pred md h
  obtain ⟨kd, d, hkd, hd, rfl⟩ := hshape
  exact ⟨rfl, rfl, kd, d, hkd, hd, rfl⟩

/-- Witness for C7: the record the names view reports for the stored
Host header carries the view's variable and its value equals its key. -/
theorem namesView_records_witness :
    mdHost.variable_ = ncHost.variable_ ∧ mdHost.value = mdHost.key := by
  have h := namesView_records ncHost (fun _ => true) (str "host") mdHost (Or.inl (by decide))
  exact ⟨h.1, h.2.1⟩

/-- Claim C10: the names view's Get delegates to the underlying Map's
Get and returns the values stored under the key (in order), not the
key names — in contrast with FindString on the same view, whose
records carry the key as their value. -/
theorem namesGet_returns_values (c : NamedCollectionNames) (key : GoStr) :
    namesGet c key = mapGet c.collection key ∧
    (∀ e, c.collection.data.find? (fun kd => kd.1 = lowerBytes key) = some e →
        namesGet c key = e.2.map (fun d => d.value)) ∧
    (∀ md, md ∈ namesFindString c key → md.value = md.key) := by
  refine ⟨rfl, ?_, ?_⟩
  · intro e he
    rw [namesGet, mapGet, he]
  · intro md hmd
    obtain ⟨kd, d, _, _, rfl⟩ := mem_namesFindString_shape c key md hmd
    rfl

/-- Witness for C10: Get on the names view over the id entry returns
the stored values v1 and v2, not the key names. -/
theorem namesGet_returns_values_witness :
    namesGet ncVals (str "Id") = [str "v1", str "v2"] := by
  have h := (namesGet_returns_values ncVals (str "Id")).2.1
    (str "id", [ { key := str "Id", value := str "v1" }
               , { key := str "ID", value := str "v2" } ]) (by decide)
  exact h.trans (by decide)
